import Mathlib

/-!
Verification development for `notify_on_page_change.py`: a shallow embedding of the
monitoring scheduler, the change-detection pipeline (`check_change`), the
line-normalisation of `get_readable_page`, and the parts of Python's `difflib`
(`SequenceMatcher`, `Differ`, `ndiff`) that the script calls, together with theorems
settling the specification claims.

Python strings are modelled as Lean `String` (or `List Char` where the library treats
them as sequences); machine integers do not occur; Python exceptions are modelled by
the explicit result type `PyRes`; Python floats occur only in difflib's similarity
ratios, which are exact dyadic arithmetic on the quantities involved here and are
modelled as exact rationals.
-/

namespace NotifyOnPageChange

/-! ### Python string primitives used by the script -/

/-- The line-boundary characters of Python `str.splitlines`. -/
def isLineBoundary (c : Char) : Bool :=
  c == '\n' || c == '\r' || c == '\x0b' || c == '\x0c' ||
  c == '\x1c' || c == '\x1d' || c == '\x1e' || c == '\x85' ||
  c == '\u2028' || c == '\u2029'

/-- Worker for `pySplitlines`: `acc` holds the current line read so far, reversed. -/
def splitlinesAux : List Char → List Char → List String
  | [], acc => if acc.isEmpty then [] else [⟨acc.reverse⟩]
  | '\r' :: '\n' :: rest, acc => ⟨acc.reverse⟩ :: splitlinesAux rest []
  | c :: rest, acc =>
    if isLineBoundary c then ⟨acc.reverse⟩ :: splitlinesAux rest []
    else splitlinesAux rest (c :: acc)

/-- Python `str.splitlines()` (without `keepends`): split at line boundaries,
treating `"\r\n"` as a single boundary; a trailing boundary produces no empty
final line. -/
def pySplitlines (s : String) : List String :=
  splitlinesAux s.data []

/-- Drop trailing `' '` characters, as the right half of Python `str.strip(' ')`. -/
def dropTrailingSpaces (cs : List Char) : List Char :=
  (cs.reverse.dropWhile (· = ' ')).reverse

/-- Python `line.strip(' ')` on the character list: remove leading and trailing
space characters (only `' '`, not tabs or other whitespace). -/
def pyStripL (cs : List Char) : List Char :=
  dropTrailingSpaces (cs.dropWhile (· = ' '))

/-- Python `line.strip(' ')`. -/
def pyStrip (s : String) : String := ⟨pyStripL s.data⟩

/-! ### `get_readable_page`, lines 130-135

The BeautifulSoup stage (parsing, decomposing `script`/`style` tags, `get_text()`)
is an external library call; the pipeline model below takes it as the parameter
`soupText`, and the list comprehension of lines 131-133 is modelled here. -/

/-- The retained lines of `get_readable_page`:
`[line.strip(' ') for line in readable.splitlines() if len(line.strip(' ')) > 0]`. -/
def readableLines (readable : String) : List String :=
  ((pySplitlines readable).filter (fun line => 0 < (pyStrip line).length)).map pyStrip

/-- Python `'\n'.join(...)` over the retained lines, line 131. -/
def readable_join (readable : String) : String :=
  String.intercalate "\n" (readableLines readable)

/-! ### `difflib.SequenceMatcher`

The script diffs via `difflib.ndiff` (line 163).  The stdlib algorithm is modelled
here over an arbitrary element type: at the line level the elements are `String`s
with no junk predicate, at the character level (inside `Differ._fancy_replace`) the
elements are `Char`s with `IS_CHARACTER_JUNK`. -/

/-- The increasing list of indices at which `x` occurs in `b` (the `b2j` entry
built by `SequenceMatcher.__chain_b` before junk removal). -/
def indicesOf [DecidableEq α] (b : List α) (x : α) : List Nat :=
  (b.enum.filter (fun p => p.2 = x)).map (·.1)

/-- Python `SequenceMatcher.__chain_b`: the `b2j` index list for an element, with junk
elements deleted, and (autojunk, always on in difflib's defaults) popular
elements deleted when `len(b) >= 200`. -/
def pyB2j [DecidableEq α] (junk : α → Bool) (b : List α) (x : α) : List Nat :=
  if junk x then []
  else
    let idxs := indicesOf b x
    if 200 ≤ b.length ∧ b.length / 100 + 1 < idxs.length then [] else idxs

/-- One row (fixed `i`) of the `find_longest_match` dynamic program: fold over the
in-window occurrence indices `js` of `a[i]` in `b`, reading run lengths from the
previous row `j2lenOld` and producing the new row together with the updated best
`(besti, bestj, bestsize)`.  Python's `j2len.get(j-1, 0)` at `j = 0` reads key
`-1`, absent from the dict, hence the explicit `j = 0` case; Python's
`i-k+1`/`j-k+1` are non-negative (the run ending at `(i, j)` has length at most
`min i j + 1`), written `i+1-k`/`j+1-k` for `Nat`. -/
def flmRow (i : Nat) (js : List Nat) (j2lenOld : Nat → Nat) (best : Nat × Nat × Nat) :
    (Nat → Nat) × (Nat × Nat × Nat) :=
  js.foldl
    (fun acc j =>
      let k := (if j = 0 then 0 else j2lenOld (j - 1)) + 1
      let newj2len := fun j' => if j' = j then k else acc.1 j'
      let best' := if acc.2.2.2 < k then (i + 1 - k, j + 1 - k, k) else acc.2
      (newj2len, best'))
    ((fun _ => 0), best)

/-- The dynamic-programming core of `SequenceMatcher.find_longest_match` (before
junk/non-junk extension): Python iterates the `b2j` list with
`if j < blo: continue` / `if j >= bhi: break`; since the list is increasing this
equals filtering to the window. -/
def flmCore [DecidableEq α] [Inhabited α] (junk : α → Bool) (a b : List α)
    (alo ahi blo bhi : Nat) : Nat × Nat × Nat :=
  ((List.range' alo (ahi - alo)).foldl
    (fun (acc : (Nat → Nat) × (Nat × Nat × Nat)) i =>
      let js := (pyB2j junk b (a.getD i default)).filter
        (fun j => decide (blo ≤ j ∧ j < bhi))
      flmRow i js acc.1 acc.2)
    ((fun _ => 0), (alo, blo, 0))).2

/-- The two "extend best match downward" while-loops of `find_longest_match`
(`want = false` for the non-junk phase, `true` for the junk phase).  The loop
decreases `besti` by one each iteration, so recursion is on `besti`. -/
def extendLow [DecidableEq α] [Inhabited α] (junk : α → Bool) (a b : List α)
    (alo blo : Nat) (want : Bool) : Nat → Nat → Nat → Nat × Nat × Nat
  | 0, bestj, bestsize => (0, bestj, bestsize)
  | besti + 1, bestj, bestsize =>
    if alo < besti + 1 ∧ blo < bestj ∧
        junk (b.getD (bestj - 1) default) = want ∧
        a.getD besti default = b.getD (bestj - 1) default then
      extendLow junk a b alo blo want besti (bestj - 1) (bestsize + 1)
    else (besti + 1, bestj, bestsize)

/-- The two "extend best match upward" while-loops of `find_longest_match`.  Each
iteration increases `bestsize` while `besti + bestsize < ahi`, so `ahi` iterations
of fuel always suffice. -/
def extendHigh [DecidableEq α] [Inhabited α] (junk : α → Bool) (a b : List α)
    (ahi bhi besti bestj : Nat) (want : Bool) : Nat → Nat → Nat
  | 0, bestsize => bestsize
  | fuel + 1, bestsize =>
    if besti + bestsize < ahi ∧ bestj + bestsize < bhi ∧
        junk (b.getD (bestj + bestsize) default) = want ∧
        a.getD (besti + bestsize) default = b.getD (bestj + bestsize) default then
      extendHigh junk a b ahi bhi besti bestj want fuel (bestsize + 1)
    else bestsize

/-- Python `SequenceMatcher.find_longest_match(alo, ahi, blo, bhi)`: dynamic program,
then extension by non-junk elements, then by junk elements, on both ends. -/
def findLongestMatch [DecidableEq α] [Inhabited α] (junk : α → Bool) (a b : List α)
    (alo ahi blo bhi : Nat) : Nat × Nat × Nat :=
  let c := flmCore junk a b alo ahi blo bhi
  let l1 := extendLow junk a b alo blo false c.1 c.2.1 c.2.2
  let s1 := extendHigh junk a b ahi bhi l1.1 l1.2.1 false ahi l1.2.2
  let l2 := extendLow junk a b alo blo true l1.1 l1.2.1 s1
  let s2 := extendHigh junk a b ahi bhi l2.1 l2.2.1 true ahi l2.2.2
  (l2.1, l2.2.1, s2)

/-- The recursive block collection of `SequenceMatcher.get_matching_blocks`.
Python keeps an explicit work queue and sorts at the end; since every block found
in the left sub-range precedes the pivot block, which precedes every block of the
right sub-range, in-order recursion produces the same sorted list.  Each
recursive call strictly shrinks `ahi - alo`, so `a.length + 1` fuel suffices. -/
def matchingBlocksAux [DecidableEq α] [Inhabited α] (junk : α → Bool) (a b : List α) :
    Nat → Nat → Nat → Nat → Nat → List (Nat × Nat × Nat)
  | 0, _, _, _, _ => []
  | fuel + 1, alo, ahi, blo, bhi =>
    let m := findLongestMatch junk a b alo ahi blo bhi
    if m.2.2 = 0 then []
    else
      (if alo < m.1 ∧ blo < m.2.1 then
        matchingBlocksAux junk a b fuel alo m.1 blo m.2.1 else [])
      ++ m ::
      (if m.1 + m.2.2 < ahi ∧ m.2.1 + m.2.2 < bhi then
        matchingBlocksAux junk a b fuel (m.1 + m.2.2) ahi (m.2.1 + m.2.2) bhi else [])

/-- The adjacent-block merging pass at the end of `get_matching_blocks`
(`i1 + k1 == i2 and j1 + k1 == j2` collapses into one block). -/
def mergeAdjacent : Nat × Nat × Nat → List (Nat × Nat × Nat) → List (Nat × Nat × Nat)
  | cur, [] => if cur.2.2 ≠ 0 then [cur] else []
  | cur, blk :: rest =>
    if cur.1 + cur.2.2 = blk.1 ∧ cur.2.1 + cur.2.2 = blk.2.1 then
      mergeAdjacent (cur.1, cur.2.1, cur.2.2 + blk.2.2) rest
    else (if cur.2.2 ≠ 0 then [cur] else []) ++ mergeAdjacent blk rest

/-- Python `SequenceMatcher.get_matching_blocks()`: recursive collection, adjacency
merge, and the `(len(a), len(b), 0)` sentinel. -/
def getMatchingBlocks [DecidableEq α] [Inhabited α] (junk : α → Bool) (a b : List α) :
    List (Nat × Nat × Nat) :=
  mergeAdjacent (0, 0, 0)
      (matchingBlocksAux junk a b (a.length + 1) 0 a.length 0 b.length)
    ++ [(a.length, b.length, 0)]

/-- The opcode tags of `SequenceMatcher.get_opcodes`. -/
inductive OpTag where
  | equal
  | replace
  | delete
  | insert
deriving DecidableEq, Repr

/-- Python `SequenceMatcher.get_opcodes()`: walk the matching blocks, emitting a
`replace`/`delete`/`insert` opcode for the gap before each block and an `equal`
opcode for each non-empty block. -/
def getOpcodes [DecidableEq α] [Inhabited α] (junk : α → Bool) (a b : List α) :
    List (OpTag × Nat × Nat × Nat × Nat) :=
  ((getMatchingBlocks junk a b).foldl
    (fun (acc : List (OpTag × Nat × Nat × Nat × Nat) × Nat × Nat) blk =>
      let i := acc.2.1
      let j := acc.2.2
      let gap : List (OpTag × Nat × Nat × Nat × Nat) :=
        if i < blk.1 ∧ j < blk.2.1 then [(.replace, i, blk.1, j, blk.2.1)]
        else if i < blk.1 then [(.delete, i, blk.1, j, blk.2.1)]
        else if j < blk.2.1 then [(.insert, i, blk.1, j, blk.2.1)]
        else []
      let i2 := blk.1 + blk.2.2
      let j2 := blk.2.1 + blk.2.2
      let eqop : List (OpTag × Nat × Nat × Nat × Nat) :=
        if blk.2.2 ≠ 0 then [(.equal, blk.1, i2, blk.2.1, j2)] else []
      (acc.1 ++ gap ++ eqop, i2, j2))
    ([], 0, 0)).1

/-- Python `SequenceMatcher.ratio()`: the fraction `2*M / T`, with `M` the total size of
the matching blocks and `T` the combined length, `1` when both sequences are
empty.  The fraction is kept as an exact numerator/denominator pair (denominator
always positive) and compared by cross-multiplication; Python computes these in
floating point, and difflib guards the comparison behind
`real_quick_ratio`/`quick_ratio`, which are documented upper bounds of `ratio`,
so its chain `rq > r0 and q > r0 and ratio > r0` is equivalent to
`ratio > r0`. -/
def similarity [DecidableEq α] [Inhabited α] (junk : α → Bool) (a b : List α) :
    Nat × Nat :=
  let m : Nat := ((getMatchingBlocks junk a b).map (fun t => t.2.2)).sum
  if a.length + b.length = 0 then (1, 1)
  else (2 * m, a.length + b.length)

/-- Strict order on the exact ratio fractions (positive denominators), by
cross-multiplication. -/
def ratioLt (x y : Nat × Nat) : Prop := x.1 * y.2 < y.1 * x.2

instance (x y : Nat × Nat) : Decidable (ratioLt x y) :=
  inferInstanceAs (Decidable (_ < _))

/-! ### `difflib.Differ` and `ndiff` -/

/-- Python `difflib.IS_CHARACTER_JUNK`: blanks and tabs. -/
def pyCharJunk (c : Char) : Bool := c == ' ' || c == '\t'

/-- Python `str.isspace()` on the characters that can occur here (the ASCII
whitespace and C1/Unicode line separators; only tag characters and line text are
tested, so this set is only consulted on `' '`-tagged positions). -/
def pyIsSpaceChar (c : Char) : Bool :=
  c == ' ' || c == '\t' || c == '\n' || c == '\r' || c == '\x0b' || c == '\x0c' ||
  c == '\x1c' || c == '\x1d' || c == '\x1e' || c == '\x1f' || c == '\x85' ||
  c == '\u00a0' || c == '\u2028' || c == '\u2029'

/-- Python `str.rstrip()` with no argument: drop trailing whitespace. -/
def pyRstripWs (s : String) : String :=
  ⟨(s.data.reverse.dropWhile pyIsSpaceChar).reverse⟩

/-- Python `Differ._dump(tag, x, lo, hi)`: one `"%s %s" % (tag, line)` per line of the
range. -/
def pyDump (tag : String) (x : List String) (lo hi : Nat) : List String :=
  (List.range' lo (hi - lo)).map (fun i => tag ++ " " ++ x.getD i "")

/-- Python `Differ._plain_replace`: dump the shorter block first. -/
def plainReplace (a : List String) (alo ahi : Nat) (b : List String) (blo bhi : Nat) :
    List String :=
  if bhi - blo < ahi - alo then pyDump "+" b blo bhi ++ pyDump "-" a alo ahi
  else pyDump "-" a alo ahi ++ pyDump "+" b blo bhi

/-- The intraline tag strings built by `Differ._fancy_replace` from the
character-level opcodes of the synch pair. -/
def buildTags (ops : List (OpTag × Nat × Nat × Nat × Nat)) : String × String :=
  ops.foldl
    (fun acc op =>
      let la := op.2.2.1 - op.2.1
      let lb := op.2.2.2.2 - op.2.2.2.1
      match op.1 with
      | .replace => (acc.1 ++ ⟨List.replicate la '^'⟩, acc.2 ++ ⟨List.replicate lb '^'⟩)
      | .delete => (acc.1 ++ ⟨List.replicate la '-'⟩, acc.2)
      | .insert => (acc.1, acc.2 ++ ⟨List.replicate lb '+'⟩)
      | .equal => (acc.1 ++ ⟨List.replicate la ' '⟩, acc.2 ++ ⟨List.replicate lb ' '⟩))
    ("", "")

/-- Python `difflib._keep_original_ws`: keep original whitespace where the tag is a
blank over a whitespace character. -/
def keepOriginalWs (s tagS : String) : String :=
  ⟨(s.data.zip tagS.data).map (fun p => if p.2 == ' ' && pyIsSpaceChar p.1 then p.1 else p.2)⟩

/-- Python `Differ._qformat`: the `- `/`? `/`+ `/`? ` quad for a synch pair with
intraline markup; difflib appends an explicit newline to the guide lines (its
inputs normally keep theirs, which lines from `splitlines()` do not). -/
def qformat (aline bline atags btags : String) : List String :=
  let atags' := pyRstripWs (keepOriginalWs aline atags)
  let btags' := pyRstripWs (keepOriginalWs bline btags)
  ["- " ++ aline]
    ++ (if atags' ≠ "" then ["? " ++ atags' ++ "\n"] else [])
    ++ ["+ " ++ bline]
    ++ (if btags' ≠ "" then ["? " ++ btags' ++ "\n"] else [])

/-- The candidate scan at the start of `Differ._fancy_replace`: running best
ratio (initially `0.74`), the best non-identical pair found so far, and the
first identical pair (`eqi`/`eqj`).  A candidate replaces the best exactly when
its ratio strictly exceeds the running best. -/
def fancyScan (a b : List String) (alo ahi blo bhi : Nat) :
    (Nat × Nat) × Option (Nat × Nat) × Option (Nat × Nat) :=
  (List.range' blo (bhi - blo)).foldl
    (fun st j =>
      (List.range' alo (ahi - alo)).foldl
        (fun (st : (Nat × Nat) × Option (Nat × Nat) × Option (Nat × Nat)) i =>
          let ai := a.getD i ""
          let bj := b.getD j ""
          if ai = bj then
            match st.2.2 with
            | none => (st.1, st.2.1, some (i, j))
            | some _ => st
          else
            let r := similarity pyCharJunk ai.data bj.data
            if ratioLt st.1 r then (r, some (i, j), st.2.2) else st)
        st)
    ((74, 100), none, none)

/-- Python `Differ._fancy_replace` (`tailkind = false`) and `Differ._fancy_helper`
(`tailkind = true`), combined into one fuelled function so the mutual recursion
is structural.  A synch pair at `(i, j)` splits the ranges into strictly smaller
halves, so the fuel `(ahi - alo) + (bhi - blo) + 2` supplied at each call site
is never exhausted.  When the best ratio stays below the cutoff `0.75` the pair
of first identical lines (if any) is the synch pair and is emitted as equal;
with no identical pair either, the replace is dumped plainly.  Python leaves
`best_i`/`best_j` unbound when no candidate beat `0.74`, and reads them only
when `best_ratio >= cutoff`, which implies a candidate was recorded; the
unreachable `none` branch returns `[]`. -/
def pyFancy (a b : List String) : Nat → Bool → Nat → Nat → Nat → Nat → List String
  | 0, _, _, _, _, _ => []
  | fuel + 1, true, alo, ahi, blo, bhi =>
    if alo < ahi then
      if blo < bhi then pyFancy a b fuel false alo ahi blo bhi
      else pyDump "-" a alo ahi
    else if blo < bhi then pyDump "+" b blo bhi
    else []
  | fuel + 1, false, alo, ahi, blo, bhi =>
    let scan := fancyScan a b alo ahi blo bhi
    if ratioLt scan.1 (3, 4) then
      match scan.2.2 with
      | none => plainReplace a alo ahi b blo bhi
      | some eq =>
        pyFancy a b fuel true alo eq.1 blo eq.2
          ++ ("  " ++ a.getD eq.1 "")
          :: pyFancy a b fuel true (eq.1 + 1) ahi (eq.2 + 1) bhi
    else
      match scan.2.1 with
      | none => []
      | some best =>
        let aelt := a.getD best.1 ""
        let belt := b.getD best.2 ""
        let tags := buildTags (getOpcodes pyCharJunk aelt.data belt.data)
        pyFancy a b fuel true alo best.1 blo best.2
          ++ qformat aelt belt tags.1 tags.2
          ++ pyFancy a b fuel true (best.1 + 1) ahi (best.2 + 1) bhi

/-- Python `Differ.compare(a, b)` with difflib's `ndiff` defaults (`linejunk=None`,
`charjunk=IS_CHARACTER_JUNK`): line-level opcodes dispatched to the dumps and to
`_fancy_replace`. -/
def pyCompare (a b : List String) : List String :=
  ((getOpcodes (fun _ => false) a b).map
    (fun op =>
      match op.1 with
      | .replace => pyFancy a b (a.length + b.length + 2) false op.2.1 op.2.2.1 op.2.2.2.1 op.2.2.2.2
      | .delete => pyDump "-" a op.2.1 op.2.2.1
      | .insert => pyDump "+" b op.2.2.2.1 op.2.2.2.2
      | .equal => pyDump " " a op.2.1 op.2.2.1)).flatten

/-- Python `difflib.ndiff(a, b)` as called on line 163. -/
def pyNdiff (a b : List String) : List String := pyCompare a b

/-! ### The check pipeline, `check_change` (lines 138-180)

Effects are made explicit: the fetch (`requests.get(url)` / `request.text`) is the
`fetched` argument (`exn` = any exception, caught by the `try` of line 139); the
BeautifulSoup text extraction inside `get_readable_page` is the `soupText`
argument (`exn` = an exception raised there, which line 139's `try` does NOT
cover); the per-page baseline file `pages/<name>.html` is the `store` argument
(`none` = `os.path.exists` false); `send_email` swallows its own errors (lines
111-118) and is recorded as the list of bodies passed to it.  `check_change`
returns `exn` exactly when an uncaught exception escapes it. -/

/-- A Python computation: a value, or an uncaught exception. -/
inductive PyRes (α : Type) where
  | ok (val : α)
  | exn
deriving DecidableEq, Repr

/-- The classified outcome of one check, as logged by lines 143/152/161/168. -/
inductive Outcome where
  | inaccessible
  | created
  | unchanged
  | changed (diffs : List String)
deriving DecidableEq, Repr

/-- The observable result of one completed `check_change` call: outcome, baseline
file content for the page afterwards, and the email bodies sent. -/
structure CheckResult where
  outcome : Outcome
  baseline : Option String
  emails : List String
deriving DecidableEq, Repr

/-- Line 143: `'{}: Page inaccessible'.format(page_name)`. -/
def inaccessibleMessage (page_name : String) : String :=
  page_name ++ ": Page inaccessible"

/-- Line 152: `'{}: Created initial page'.format(page_name)`. -/
def createdMessage (page_name : String) : String :=
  page_name ++ ": Created initial page"

/-- The fixed delimiter row of lines 170/172. -/
def dashRow : String := "--------------------------------"

/-- Lines 166-172: the notification body for a changed page. -/
def changedMessage (page_name : String) (differences : List String) : String :=
  page_name ++ ": Page changed" ++ "\n\nDifferences:" ++ "\n" ++ dashRow ++ "\n" ++
    String.intercalate "\n" differences ++ "\n" ++ dashRow ++ "\n"

/-- Model of `get_readable_page(html)` (lines 121-135): BeautifulSoup extraction via
`soupText`, then the line normalisation. -/
def get_readable_page (soupText : String → PyRes String) (html : String) :
    PyRes String :=
  match soupText html with
  | .exn => .exn
  | .ok readable => .ok (readable_join readable)

/-- Model of `check_change` (lines 138-180), generic in the differ so that its use can be
reasoned about; the script instantiates it with `difflib.ndiff`.  The `try` of
line 139 guards only the fetch; every later failure escapes. -/
def check_change_with (differ : List String → List String → List String)
    (page_name : String) (soupText : String → PyRes String)
    (fetched : PyRes String) (store : Option String) : PyRes CheckResult :=
  match fetched with
  | .exn => .ok ⟨.inaccessible, store, [inaccessibleMessage page_name]⟩
  | .ok new_page_html =>
    match get_readable_page soupText new_page_html with
    | .exn => .exn
    | .ok new_page_readable =>
      match store with
      | none => .ok ⟨.created, some new_page_html, [createdMessage page_name]⟩
      | some old_page_html =>
        match get_readable_page soupText old_page_html with
        | .exn => .exn
        | .ok old_page_readable =>
          if old_page_readable = new_page_readable then
            .ok ⟨.unchanged, some new_page_html, []⟩
          else
            let differences := differ (pySplitlines old_page_readable)
              (pySplitlines new_page_readable)
            .ok ⟨.changed differences, some new_page_html,
              [changedMessage page_name differences]⟩

/-- Instantiation of `check_change` as the script runs it, with `difflib.ndiff` as differ. -/
def check_change (page_name : String) (soupText : String → PyRes String)
    (fetched : PyRes String) (store : Option String) : PyRes CheckResult :=
  check_change_with pyNdiff page_name soupText fetched store

/-! ### The scheduler, `main` (lines 226-284)

Timestamps (`datetime.datetime.now()`) are modelled as integer seconds;
`datetime.timedelta(hours=h)` is `3600 * h` seconds. -/

/-- The `CheckPage` record (lines 89-94), with `last_checked` set (as it is
throughout the scheduling loop). -/
structure CheckPage where
  page_name : String
  url : String
  check_interval_hours : Int
  last_checked : Int
deriving DecidableEq, Repr

/-- A placeholder page for out-of-range `List.getD` reads (never hit on the
index returned by `selectNext`). -/
def defaultPage : CheckPage := ⟨"", "", 0, 0⟩

/-- Lines 270-271: `page.last_checked + datetime.timedelta(hours=page.check_interval_hours)`. -/
def time_due (p : CheckPage) : Int :=
  p.last_checked + 3600 * p.check_interval_hours

/-- The scan of lines 269-274, threading the position of `next_page` in
`pages_to_check` (the object reference) and `next_page_time_due`. -/
def selectNextAux : List CheckPage → Nat → Option (Nat × Int) → Option (Nat × Int)
  | [], _, best => best
  | p :: rest, idx, best =>
    let td := time_due p
    let best' :=
      match best with
      | none => some (idx, td)
      | some b => if td < b.2 then some (idx, td) else some b
    selectNextAux rest (idx + 1) best'

/-- Lines 266-274: the index and due-time of the page the loop will check next
(`none` only for an empty page list, which `main` rules out at line 232). -/
def selectNext (pages : List CheckPage) : Option (Nat × Int) :=
  selectNextAux pages 0 none

/-- Line 283: `next_page.last_checked = datetime.datetime.now()`, a mutation of
the selected list element. -/
def setLastChecked (pages : List CheckPage) (i : Nat) (now : Int) : List CheckPage :=
  pages.set i { pages.getD i defaultPage with last_checked := now }

/-- One iteration of the `while True` loop (lines 265-284), minus the sleep: pick
the due page, stamp `last_checked := now`, then run its check.  `checker`
abstracts `check_change` together with its environment (network, parser, baseline
file) for the chosen page.  An empty page list would raise a `TypeError` on
line 276 (`next_page_time_due` is `None`), modelled as `exn`. -/
def loopStep (checker : CheckPage → PyRes CheckResult) (now : Int)
    (pages : List CheckPage) : List CheckPage × PyRes CheckResult :=
  match selectNext pages with
  | none => (pages, .exn)
  | some sel =>
    let pages' := setLastChecked pages sel.1 now
    (pages', checker (pages'.getD sel.1 defaultPage))

/-- The scheduling loop run against a finite oracle of clock readings: each entry
of `times` is the `datetime.datetime.now()` of one iteration.  An uncaught
exception from a check propagates (there is no handler in `main` nor in the
`__main__` guard for it, which catches only `KnownError`/`ConfigOptionError`),
terminating the loop. -/
def runLoop (checker : CheckPage → PyRes CheckResult) :
    List Int → List CheckPage → PyRes (List CheckPage)
  | [], pages => .ok pages
  | now :: ts, pages =>
    let step := loopStep checker now pages
    match step.2 with
    | .exn => .exn
    | .ok _ => runLoop checker ts step.1

/-- The startup pass (lines 261-263): in configuration order, stamp
`last_checked := now` and run the page's first check; an uncaught exception
aborts the program.  `times` is the clock oracle, one reading per page. -/
def startupRun (checker : CheckPage → PyRes CheckResult) :
    List CheckPage → List Int → PyRes (List CheckPage)
  | [], _ => .ok []
  | ps, [] => .ok ps
  | p :: ps, t :: ts =>
    let p' := { p with last_checked := t }
    match checker p' with
    | .exn => .exn
    | .ok _ =>
      match startupRun checker ps ts with
      | .exn => .exn
      | .ok rest => .ok (p' :: rest)

/-- The pure timestamp effect of the startup pass: page `k` gets `times[k]` as
its `last_checked`, in configuration order. -/
def stampTimes : List CheckPage → List Int → List CheckPage
  | [], _ => []
  | ps, [] => ps
  | p :: ps, t :: ts => { p with last_checked := t } :: stampTimes ps ts

/-! ### Helper lemmas about the pipeline -/

/-- Exhaustive description of a `check_change_with` call that completed normally
on a successful fetch: the extraction of the new page succeeded, and the result
is the created / unchanged / changed record, with the baseline always refreshed
to the fetched raw content and the diff (if any) taken against the old
baseline. -/
theorem check_change_ok_cases {differ : List String → List String → List String}
    {page_name : String} {soupText : String → PyRes String} {html : String}
    {store : Option String} {cr : CheckResult}
    (h : check_change_with differ page_name soupText (PyRes.ok html) store = PyRes.ok cr) :
    ∃ newR, get_readable_page soupText html = PyRes.ok newR ∧
      ((store = none ∧ cr = ⟨.created, some html, [createdMessage page_name]⟩) ∨
       (∃ oldHtml oldR, store = some oldHtml ∧
         get_readable_page soupText oldHtml = PyRes.ok oldR ∧
         ((oldR = newR ∧ cr = ⟨.unchanged, some html, []⟩) ∨
          (oldR ≠ newR ∧
            cr = ⟨.changed (differ (pySplitlines oldR) (pySplitlines newR)), some html,
              [changedMessage page_name
                (differ (pySplitlines oldR) (pySplitlines newR))]⟩)))) := by
  simp only [check_change_with] at h
  split at h
  next hn => exact PyRes.noConfusion h
  next newR hn =>
    refine ⟨newR, hn, ?_⟩
    split at h
    next =>
      left
      injection h with h'
      exact ⟨rfl, h'.symm⟩
    next oldHtml =>
      right
      split at h
      next ho => exact PyRes.noConfusion h
      next oldR ho =>
        refine ⟨oldHtml, oldR, rfl, ho, ?_⟩
        split at h
        next he =>
          left
          injection h with h'
          exact ⟨he, h'.symm⟩
        next he =>
          right
          injection h with h'
          exact ⟨he, h'.symm⟩

/-- A second check against an unchanged remote: when extraction of `html`
succeeds and the stored baseline is `html` itself, the check is `unchanged`,
sends no email, and rewrites the same baseline. -/
theorem check_change_same_html (page_name : String) (soupText : String → PyRes String)
    (html newR : String) (hn : get_readable_page soupText html = PyRes.ok newR) :
    check_change page_name soupText (PyRes.ok html) (some html) =
      PyRes.ok ⟨Outcome.unchanged, some html, []⟩ := by
  simp only [check_change, check_change_with, hn, if_pos rfl, if_true]

/-! ### The claims -/

/-- C4: diffing old lines `["A","B","C"]` against new lines `["A","X","C"]`
marks `A` and `C` equal and renders the replacement of `B` by `X` as the delete
of `B` immediately followed by the insert of `X`. -/
theorem ndiff_replacement_delete_then_insert :
    pyNdiff ["A", "B", "C"] ["A", "X", "C"] = ["  A", "- B", "+ X", "  C"] := by
  decide

/-- C8: when the fetch fails, `check_change` reports the page inaccessible,
sends the notification email, and leaves the baseline store for the page exactly
as it was — no baseline is created or overwritten. -/
theorem fetch_failure_inaccessible_frame (page_name : String)
    (soupText : String → PyRes String) (store : Option String) :
    check_change page_name soupText PyRes.exn store =
      PyRes.ok ⟨Outcome.inaccessible, store, [inaccessibleMessage page_name]⟩ := rfl

/-- C7 counterexample: with no existing baseline and a successful fetch, the
check does not always yield `created` — line 147 extracts the fetched markup
before the baseline-existence test of line 151, and an extraction failure there
escapes as an uncaught exception, producing no outcome, no notification, and no
baseline write, so the claim's "always" fails as stated. -/
theorem first_check_created_counterexample :
    check_change "pg" (fun _ => PyRes.exn) (PyRes.ok "<body>") none = PyRes.exn ∧
    check_change "pg" (fun _ => PyRes.exn) (PyRes.ok "<body>") none ≠
      PyRes.ok ⟨Outcome.created, some "<body>", [createdMessage "pg"]⟩ := by
  decide

/-- C7 amended: with no existing baseline, a check whose fetch succeeds and
whose extraction of the fetched markup succeeds yields `created` with its
notification and stores the fetched raw content — for every differ, so the
differ is never consulted. -/
theorem first_check_created (differ : List String → List String → List String)
    (page_name : String) (soupText : String → PyRes String) (html r : String)
    (h : soupText html = PyRes.ok r) :
    check_change_with differ page_name soupText (PyRes.ok html) none =
      PyRes.ok ⟨Outcome.created, some html, [createdMessage page_name]⟩ := by
  simp only [check_change_with, get_readable_page, h]

/-- Witness for C7 at a concrete input. -/
theorem first_check_created_witness :
    check_change_with (fun _ _ => []) "p" (fun s => PyRes.ok s) (PyRes.ok "h") none =
      PyRes.ok ⟨Outcome.created, some "h", [createdMessage "p"]⟩ :=
  first_check_created (fun _ _ => []) "p" (fun s => PyRes.ok s) "h" "h" rfl

/-- C5: after any `check_change` that completes on a successful fetch — created,
unchanged or changed — the stored baseline equals the raw content of that fetch,
and a `changed` outcome's diff was computed against the old baseline's canonical
text (the baseline read before the overwrite), not against the new content. -/
theorem baseline_refresh_and_diff_against_old (page_name : String)
    (soupText : String → PyRes String) (html : String) (store : Option String)
    (cr : CheckResult)
    (h : check_change page_name soupText (PyRes.ok html) store = PyRes.ok cr) :
    cr.baseline = some html ∧
    ∀ ds, cr.outcome = Outcome.changed ds →
      ∃ oldHtml oldR newR, store = some oldHtml ∧
        get_readable_page soupText oldHtml = PyRes.ok oldR ∧
        get_readable_page soupText html = PyRes.ok newR ∧ oldR ≠ newR ∧
        ds = pyNdiff (pySplitlines oldR) (pySplitlines newR) := by
  obtain ⟨newR, hn, hc⟩ := @check_change_ok_cases pyNdiff _ _ _ _ _ h
  rcases hc with ⟨hst, rfl⟩ | ⟨oldHtml, oldR, hst, ho, hcase⟩
  · exact ⟨rfl, fun ds hds => absurd hds (by simp)⟩
  · rcases hcase with ⟨he, rfl⟩ | ⟨he, rfl⟩
    · exact ⟨rfl, fun ds hds => absurd hds (by simp)⟩
    · refine ⟨rfl, fun ds hds => ⟨oldHtml, oldR, newR, hst, ho, hn, he, ?_⟩⟩
      injection hds with h'
      exact h'.symm

/-- Witness for C5 at a concrete input (an `unchanged` check). -/
theorem baseline_refresh_witness :
    (⟨Outcome.unchanged, some "a", []⟩ : CheckResult).baseline = some "a" ∧
    ∀ ds, (⟨Outcome.unchanged, some "a", []⟩ : CheckResult).outcome = Outcome.changed ds →
      ∃ oldHtml oldR newR, (some "a" : Option String) = some oldHtml ∧
        get_readable_page (fun s => PyRes.ok s) oldHtml = PyRes.ok oldR ∧
        get_readable_page (fun s => PyRes.ok s) "a" = PyRes.ok newR ∧ oldR ≠ newR ∧
        ds = pyNdiff (pySplitlines oldR) (pySplitlines newR) :=
  baseline_refresh_and_diff_against_old "p" (fun s => PyRes.ok s) "a" (some "a")
    ⟨Outcome.unchanged, some "a", []⟩ (by decide)

/-- C6: running the check twice in succession with identical raw remote content
yields `unchanged` on the second run, sends no notification for it, and leaves
the stored baseline byte-identical to what the first run stored. -/
theorem second_run_unchanged (page_name : String) (soupText : String → PyRes String)
    (html : String) (store : Option String) (cr : CheckResult)
    (h : check_change page_name soupText (PyRes.ok html) store = PyRes.ok cr) :
    cr.baseline = some html ∧
    check_change page_name soupText (PyRes.ok html) cr.baseline =
      PyRes.ok ⟨Outcome.unchanged, some html, []⟩ := by
  obtain ⟨newR, hn, hc⟩ := @check_change_ok_cases pyNdiff _ _ _ _ _ h
  have hb : cr.baseline = some html := by
    rcases hc with ⟨_, rfl⟩ | ⟨_, _, _, _, hcase⟩
    · rfl
    · rcases hcase with ⟨_, rfl⟩ | ⟨_, rfl⟩ <;> rfl
  refine ⟨hb, ?_⟩
  rw [hb]
  exact check_change_same_html page_name soupText html newR hn

/-- Witness for C6 at a concrete input (first run creates the baseline). -/
theorem second_run_unchanged_witness :
    (⟨Outcome.created, some "a", [createdMessage "p"]⟩ : CheckResult).baseline = some "a" ∧
    check_change "p" (fun s => PyRes.ok s) (PyRes.ok "a")
        (⟨Outcome.created, some "a", [createdMessage "p"]⟩ : CheckResult).baseline =
      PyRes.ok ⟨Outcome.unchanged, some "a", []⟩ :=
  second_run_unchanged "p" (fun s => PyRes.ok s) "a" none
    ⟨Outcome.created, some "a", [createdMessage "p"]⟩ (by decide)

/-! ### C2: the text extractor's line normalisation -/

/-- The head of a `dropWhile` result never satisfies the dropped predicate. -/
theorem head?_dropWhile_not (p : Char → Bool) (cs : List Char) (c : Char)
    (h : (cs.dropWhile p).head? = some c) : p c = false := by
  induction cs with
  | nil => simp at h
  | cons a as ih =>
    rw [List.dropWhile_cons] at h
    split at h
    · exact ih h
    · next hp =>
      injection h with h'
      subst h'
      simpa using hp

/-- A line stripped by `pyStripL` does not start with a space: `pyStripL cs` is
an initial segment of `cs.dropWhile (· = ' ')`, whose head is not a space. -/
theorem pyStripL_head_ne_space (cs : List Char) (c : Char)
    (h : (pyStripL cs).head? = some c) : c ≠ ' ' := by
  have hz : cs.dropWhile (· = ' ') =
      pyStripL cs ++ ((cs.dropWhile (· = ' ')).reverse.takeWhile (· = ' ')).reverse := by
    unfold pyStripL dropTrailingSpaces
    rw [← List.reverse_append, List.takeWhile_append_dropWhile, List.reverse_reverse]
  cases e : pyStripL cs with
  | nil => rw [e] at h; simp at h
  | cons a as =>
    rw [e] at h
    injection h with h'
    rw [e] at hz
    have ha : (cs.dropWhile (· = ' ')).head? = some a := by rw [hz]; rfl
    intro hc
    rw [h', hc] at ha
    simpa using head?_dropWhile_not (· = ' ') cs ' ' ha

/-- A line stripped by `pyStripL` does not end with a space. -/
theorem pyStripL_last_ne_space (cs : List Char) (c : Char)
    (h : (pyStripL cs).getLast? = some c) : c ≠ ' ' := by
  have hrev : (pyStripL cs).reverse =
      ((cs.dropWhile (· = ' ')).reverse).dropWhile (· = ' ') := by
    unfold pyStripL dropTrailingSpaces
    rw [List.reverse_reverse]
  rw [← List.head?_reverse, hrev] at h
  intro hc
  subst hc
  simpa using head?_dropWhile_not _ _ ' ' h

/-- C2 counterexample: on input consisting of a single tab character, the
extractor retains the line `"\t"` unmodified — a non-empty line consisting
entirely of whitespace, with its surrounding whitespace (the tab) untrimmed, so
the claim's "all surrounding whitespace trimmed / no whitespace-only line
retained" fails as stated. -/
theorem readableLines_whitespace_counterexample :
    readableLines "\t" = ["\t"] ∧ ("\t" : String) ≠ "" ∧
    ∀ c ∈ ("\t" : String).data, c.isWhitespace := by
  decide

/-- C2 amended: the extractor keeps the retained lines in document order (a
sublist of the space-stripped split lines); every retained line is non-empty,
has surrounding space characters (`' '`, the only characters `strip(' ')`
removes) trimmed — it neither starts nor ends with a space — and contains at
least one non-space character.  (Lines made only of other whitespace, such as
tabs, are retained with that whitespace intact.) -/
theorem readableLines_amended (readable : String) :
    List.Sublist (readableLines readable) ((pySplitlines readable).map pyStrip) ∧
    ∀ l ∈ readableLines readable,
      l ≠ "" ∧ l.data.head? ≠ some ' ' ∧ l.data.getLast? ≠ some ' ' ∧
      ∃ c ∈ l.data, c ≠ ' ' := by
  constructor
  · exact (List.filter_sublist _).map pyStrip
  · intro l hl
    rcases List.mem_map.mp hl with ⟨x, hx, rfl⟩
    have hlen : 0 < (pyStrip x).length := by
      simpa using List.of_mem_filter hx
    have hne : (pyStrip x).data ≠ [] := by
      intro h0
      rw [show (pyStrip x).length = (pyStrip x).data.length from rfl, h0] at hlen
      simp at hlen
    refine ⟨?_, ?_, ?_, ?_⟩
    · intro h0
      exact hne (by rw [h0])
    · intro hh
      exact pyStripL_head_ne_space x.data ' ' hh rfl
    · intro hh
      exact pyStripL_last_ne_space x.data ' ' hh rfl
    · cases e : (pyStrip x).data.head? with
      | none => exact absurd (List.head?_eq_none_iff.mp e) hne
      | some c =>
        exact ⟨c, List.mem_of_mem_head? e, pyStripL_head_ne_space x.data c e⟩

/-! ### C9: the next-due scan -/

/-- If the running best due-time is already minimal over the rest of the list,
the scan keeps it (the strict `<` of line 272 never fires). -/
theorem selectNextAux_keep (l : List CheckPage) : ∀ (idx bi : Nat) (bd : Int),
    (∀ q ∈ l, bd ≤ time_due q) →
    selectNextAux l idx (some (bi, bd)) = some (bi, bd) := by
  induction l with
  | nil => intro idx bi bd _; rfl
  | cons p rest ih =>
    intro idx bi bd hall
    have hstep : selectNextAux (p :: rest) idx (some (bi, bd)) =
        selectNextAux rest (idx + 1)
          (if time_due p < bd then some (idx, time_due p) else some (bi, bd)) := rfl
    rw [hstep, if_neg (not_lt.mpr (hall p (List.mem_cons_self p rest)))]
    exact ih (idx + 1) bi bd fun q hq => hall q (List.mem_cons_of_mem p hq)

/-- If some element of the list beats the running best due-time, the scan
returns the first element attaining the minimum of the list: position `idx + k`,
due-time smaller than the old best, minimal over the list, and strictly smaller
than every earlier element's due-time. -/
theorem selectNextAux_found (l : List CheckPage) : ∀ (idx bi : Nat) (bd : Int),
    (∃ q ∈ l, time_due q < bd) →
    ∃ k, k < l.length ∧
      selectNextAux l idx (some (bi, bd)) =
        some (idx + k, time_due (l.getD k defaultPage)) ∧
      time_due (l.getD k defaultPage) < bd ∧
      (∀ q ∈ l, time_due (l.getD k defaultPage) ≤ time_due q) ∧
      ∀ j, j < k → time_due (l.getD k defaultPage) < time_due (l.getD j defaultPage) := by
  induction l with
  | nil =>
    intro idx bi bd h
    rcases h with ⟨q, hq, _⟩
    exact absurd hq (List.not_mem_nil q)
  | cons p rest ih =>
    intro idx bi bd hex
    have hstep : selectNextAux (p :: rest) idx (some (bi, bd)) =
        selectNextAux rest (idx + 1)
          (if time_due p < bd then some (idx, time_due p) else some (bi, bd)) := rfl
    by_cases hp : time_due p < bd
    · rw [hstep, if_pos hp]
      by_cases hrest : ∃ q ∈ rest, time_due q < time_due p
      · obtain ⟨k, hk, heq, hlt, hmin, hearly⟩ := ih (idx + 1) idx (time_due p) hrest
        refine ⟨k + 1, by simpa using Nat.succ_lt_succ hk, ?_, ?_, ?_, ?_⟩
        · rw [heq, List.getD_cons_succ]
          have : idx + 1 + k = idx + (k + 1) := by omega
          rw [this]
        · rw [List.getD_cons_succ]
          exact hlt.trans hp
        · intro q hq
          rw [List.getD_cons_succ]
          rcases List.mem_cons.mp hq with rfl | hq'
          · exact le_of_lt hlt
          · exact hmin q hq'
        · intro j hj
          cases j with
          | zero => simpa using hlt
          | succ m =>
            rw [List.getD_cons_succ, List.getD_cons_succ]
            exact hearly m (by omega)
      · push_neg at hrest
        rw [selectNextAux_keep rest (idx + 1) idx (time_due p) hrest]
        refine ⟨0, Nat.succ_pos _, by simp, by simpa using hp, ?_, ?_⟩
        · intro q hq
          rcases List.mem_cons.mp hq with rfl | hq'
          · simp
          · simpa using hrest q hq'
        · intro j hj
          exact absurd hj (Nat.not_lt_zero j)
    · rw [hstep, if_neg hp]
      have hex' : ∃ q ∈ rest, time_due q < bd := by
        rcases hex with ⟨q, hq, hlt⟩
        rcases List.mem_cons.mp hq with rfl | hq'
        · exact absurd hlt hp
        · exact ⟨q, hq', hlt⟩
      obtain ⟨k, hk, heq, hlt, hmin, hearly⟩ := ih (idx + 1) bi bd hex'
      refine ⟨k + 1, by simpa using Nat.succ_lt_succ hk, ?_, ?_, ?_, ?_⟩
      · rw [heq, List.getD_cons_succ]
        have : idx + 1 + k = idx + (k + 1) := by omega
        rw [this]
      · rw [List.getD_cons_succ]
        exact hlt
      · intro q hq
        rw [List.getD_cons_succ]
        rcases List.mem_cons.mp hq with rfl | hq'
        · exact le_of_lt (lt_of_lt_of_le hlt (not_lt.mp hp))
        · exact hmin q hq'
      · intro j hj
        cases j with
        | zero =>
          rw [List.getD_cons_succ, List.getD_cons_zero]
          exact lt_of_lt_of_le hlt (not_lt.mp hp)
        | succ m =>
          rw [List.getD_cons_succ, List.getD_cons_succ]
          exact hearly m (by omega)

/-- C9: for a non-empty page list, the scan of lines 266-274 returns the page
with the minimal due-time; on ties it deterministically returns the earliest
page in configuration order (every earlier page has strictly greater due-time),
so repeated calls on the same state pick the same page. -/
theorem selectNext_minimal_earliest (pages : List CheckPage) (h : pages ≠ []) :
    ∃ i d, selectNext pages = some (i, d) ∧ i < pages.length ∧
      d = time_due (pages.getD i defaultPage) ∧
      (∀ q ∈ pages, d ≤ time_due q) ∧
      ∀ j, j < i → d < time_due (pages.getD j defaultPage) := by
  cases pages with
  | nil => exact absurd rfl h
  | cons p rest =>
    have hstep : selectNext (p :: rest) =
        selectNextAux rest 1 (some (0, time_due p)) := rfl
    by_cases hrest : ∃ q ∈ rest, time_due q < time_due p
    · obtain ⟨k, hk, heq, hlt, hmin, hearly⟩ := selectNextAux_found rest 1 0 (time_due p) hrest
      refine ⟨1 + k, time_due (rest.getD k defaultPage), ?_, ?_, ?_, ?_, ?_⟩
      · rw [hstep, heq]
      · simp only [List.length_cons]
        omega
      · have : 1 + k = k + 1 := by omega
        rw [this, List.getD_cons_succ]
      · intro q hq
        rcases List.mem_cons.mp hq with rfl | hq'
        · exact le_of_lt hlt
        · exact hmin q hq'
      · intro j hj
        cases j with
        | zero => simpa using hlt
        | succ m =>
          rw [List.getD_cons_succ]
          exact hearly m (by omega)
    · push_neg at hrest
      rw [hstep, selectNextAux_keep rest 1 0 (time_due p) hrest]
      refine ⟨0, time_due p, rfl, Nat.succ_pos _, by simp, ?_, ?_⟩
      · intro q hq
        rcases List.mem_cons.mp hq with rfl | hq'
        · simp
        · simpa using hrest q hq'
      · intro j hj
        exact absurd hj (Nat.not_lt_zero j)

/-- Witness for C9: three pages with due-times `t+1h`, `t+3h`, `t+2h` (here
`t = 0`); the scan must pick the first. -/
theorem selectNext_minimal_earliest_witness :
    ∃ i d,
      selectNext [⟨"a", "ua", 1, 0⟩, ⟨"b", "ub", 3, 0⟩, ⟨"c", "uc", 2, 0⟩] = some (i, d) ∧
      i < ([⟨"a", "ua", 1, 0⟩, ⟨"b", "ub", 3, 0⟩, ⟨"c", "uc", 2, 0⟩] : List CheckPage).length ∧
      d = time_due (([⟨"a", "ua", 1, 0⟩, ⟨"b", "ub", 3, 0⟩, ⟨"c", "uc", 2, 0⟩] :
        List CheckPage).getD i defaultPage) ∧
      (∀ q ∈ ([⟨"a", "ua", 1, 0⟩, ⟨"b", "ub", 3, 0⟩, ⟨"c", "uc", 2, 0⟩] : List CheckPage),
        d ≤ time_due q) ∧
      ∀ j, j < i →
        d < time_due (([⟨"a", "ua", 1, 0⟩, ⟨"b", "ub", 3, 0⟩, ⟨"c", "uc", 2, 0⟩] :
          List CheckPage).getD j defaultPage) :=
  selectNext_minimal_earliest
    [⟨"a", "ua", 1, 0⟩, ⟨"b", "ub", 3, 0⟩, ⟨"c", "uc", 2, 0⟩] (by decide)

/-! ### C10: the timestamp is stamped before the check runs -/

/-- Reading back the element just written by `List.set`. -/
theorem getD_set_self (l : List CheckPage) : ∀ (i : Nat) (pg : CheckPage),
    i < l.length → (l.set i pg).getD i defaultPage = pg := by
  induction l with
  | nil => intro i pg h; simp at h
  | cons a as ih =>
    intro i pg h
    cases i with
    | zero => rfl
    | succ n => exact ih n pg (by simpa using h)

/-- Writing with `List.set` leaves every other position unchanged. -/
theorem getD_set_ne (l : List CheckPage) : ∀ (i j : Nat) (pg : CheckPage), j ≠ i →
    (l.set i pg).getD j defaultPage = l.getD j defaultPage := by
  induction l with
  | nil => intro i j pg _; rfl
  | cons a as ih =>
    intro i j pg h
    cases i with
    | zero =>
      cases j with
      | zero => exact absurd rfl h
      | succ m => rfl
    | succ n =>
      cases j with
      | zero => rfl
      | succ m => exact ih n m pg (fun hh => h (by rw [hh]))

/-- A startup pass that completes stamps exactly the oracle times into the pages,
in configuration order, independently of the checker's results. -/
theorem startupRun_stamps (checker : CheckPage → PyRes CheckResult) :
    ∀ (ps : List CheckPage) (ts : List Int) (pgs : List CheckPage),
      startupRun checker ps ts = PyRes.ok pgs → pgs = stampTimes ps ts := by
  intro ps
  induction ps with
  | nil =>
    intro ts pgs h
    cases ts with
    | nil => injection h with h'; exact h'.symm
    | cons t ts' => injection h with h'; exact h'.symm
  | cons p rest ih =>
    intro ts pgs h
    cases ts with
    | nil => injection h with h'; exact h'.symm
    | cons t ts' =>
      simp only [startupRun] at h
      split at h
      · exact PyRes.noConfusion h
      · split at h
        · exact PyRes.noConfusion h
        · next rest' hrec =>
          injection h with h'
          rw [← h']
          exact congrArg _ (ih ts' rest' hrec)

/-- The stamped page at position `k` is the original page with `last_checked`
replaced by the `k`-th oracle time. -/
theorem stampTimes_getD (ps : List CheckPage) : ∀ (ts : List Int) (k : Nat),
    k < ps.length → k < ts.length →
    (stampTimes ps ts).getD k defaultPage =
      { ps.getD k defaultPage with last_checked := ts.getD k 0 } := by
  induction ps with
  | nil => intro ts k hk _; simp at hk
  | cons p rest ih =>
    intro ts k hk hk'
    cases ts with
    | nil => simp at hk'
    | cons t ts' =>
      cases k with
      | zero => rfl
      | succ m => exact ih ts' m (by simpa using hk) (by simpa using hk')

/-- C10: in the scheduling loop the selected page's `last_checked` is set to the
clock reading taken immediately before the check begins (line 283 precedes line
284), so the page list after stamping does not depend on the checker at all —
the check's outcome, failure, or duration cannot affect it — and the stamped
page's due-time is exactly that clock reading plus its interval, every other
page being untouched.  Likewise the startup pass (lines 261-263) stamps each
page, in configuration order, with the clock reading taken just before its own
first check, independently of the checker. -/
theorem last_checked_stamped_before_check
    (checker checker' : CheckPage → PyRes CheckResult) (now : Int)
    (pages : List CheckPage) (i : Nat) (d : Int)
    (hsel : selectNext pages = some (i, d)) :
    (loopStep checker now pages).1 = setLastChecked pages i now ∧
    (loopStep checker now pages).1 = (loopStep checker' now pages).1 ∧
    (i < pages.length →
      (setLastChecked pages i now).getD i defaultPage =
        { pages.getD i defaultPage with last_checked := now } ∧
      time_due ((setLastChecked pages i now).getD i defaultPage) =
        now + 3600 * (pages.getD i defaultPage).check_interval_hours) ∧
    (∀ j, j ≠ i →
      (setLastChecked pages i now).getD j defaultPage = pages.getD j defaultPage) ∧
    (∀ (ts : List Int) (pgs : List CheckPage),
      startupRun checker pages ts = PyRes.ok pgs → pgs = stampTimes pages ts) ∧
    ∀ (ts : List Int) (k : Nat), k < pages.length → k < ts.length →
      (stampTimes pages ts).getD k defaultPage =
        { pages.getD k defaultPage with last_checked := ts.getD k 0 } := by
  have hstep : (loopStep checker now pages).1 = setLastChecked pages i now := by
    unfold loopStep
    rw [hsel]
  have hstep' : (loopStep checker' now pages).1 = setLastChecked pages i now := by
    unfold loopStep
    rw [hsel]
  refine ⟨hstep, by rw [hstep, hstep'], ?_, ?_,
    startupRun_stamps checker pages,
    fun ts k hk hk' => stampTimes_getD pages ts k hk hk'⟩
  · intro hi
    have hget : (setLastChecked pages i now).getD i defaultPage =
        { pages.getD i defaultPage with last_checked := now } :=
      getD_set_self pages i _ hi
    exact ⟨hget, by rw [hget]; rfl⟩
  · intro j hj
    exact getD_set_ne pages i j _ hj

/-- Witness for C10 at a concrete two-page state and two different checkers. -/
theorem last_checked_stamped_before_check_witness :
    (loopStep (fun _ => PyRes.ok ⟨Outcome.created, none, []⟩) 50
        [⟨"a", "ua", 1, 0⟩, ⟨"b", "ub", 1, 100⟩]).1 =
      setLastChecked [⟨"a", "ua", 1, 0⟩, ⟨"b", "ub", 1, 100⟩] 0 50 ∧
    (loopStep (fun _ => PyRes.ok ⟨Outcome.created, none, []⟩) 50
        [⟨"a", "ua", 1, 0⟩, ⟨"b", "ub", 1, 100⟩]).1 =
      (loopStep (fun _ => PyRes.exn) 50 [⟨"a", "ua", 1, 0⟩, ⟨"b", "ub", 1, 100⟩]).1 ∧
    (0 < ([⟨"a", "ua", 1, 0⟩, ⟨"b", "ub", 1, 100⟩] : List CheckPage).length →
      (setLastChecked [⟨"a", "ua", 1, 0⟩, ⟨"b", "ub", 1, 100⟩] 0 50).getD 0 defaultPage =
        { ([⟨"a", "ua", 1, 0⟩, ⟨"b", "ub", 1, 100⟩] : List CheckPage).getD 0 defaultPage with
            last_checked := 50 } ∧
      time_due ((setLastChecked [⟨"a", "ua", 1, 0⟩, ⟨"b", "ub", 1, 100⟩] 0 50).getD 0
          defaultPage) =
        50 + 3600 * (([⟨"a", "ua", 1, 0⟩, ⟨"b", "ub", 1, 100⟩] :
          List CheckPage).getD 0 defaultPage).check_interval_hours) ∧
    (∀ j, j ≠ 0 →
      (setLastChecked [⟨"a", "ua", 1, 0⟩, ⟨"b", "ub", 1, 100⟩] 0 50).getD j defaultPage =
        ([⟨"a", "ua", 1, 0⟩, ⟨"b", "ub", 1, 100⟩] : List CheckPage).getD j defaultPage) ∧
    (∀ (ts : List Int) (pgs : List CheckPage),
      startupRun (fun _ => PyRes.ok ⟨Outcome.created, none, []⟩)
          [⟨"a", "ua", 1, 0⟩, ⟨"b", "ub", 1, 100⟩] ts = PyRes.ok pgs →
      pgs = stampTimes [⟨"a", "ua", 1, 0⟩, ⟨"b", "ub", 1, 100⟩] ts) ∧
    ∀ (ts : List Int) (k : Nat),
      k < ([⟨"a", "ua", 1, 0⟩, ⟨"b", "ub", 1, 100⟩] : List CheckPage).length →
      k < ts.length →
      (stampTimes [⟨"a", "ua", 1, 0⟩, ⟨"b", "ub", 1, 100⟩] ts).getD k defaultPage =
        { ([⟨"a", "ua", 1, 0⟩, ⟨"b", "ub", 1, 100⟩] :
            List CheckPage).getD k defaultPage with last_checked := ts.getD k 0 } :=
  last_checked_stamped_before_check (fun _ => PyRes.ok ⟨Outcome.created, none, []⟩)
    (fun _ => PyRes.exn) 50 [⟨"a", "ua", 1, 0⟩, ⟨"b", "ub", 1, 100⟩] 0 3600 (by decide)

/-! ### C1: what the pipeline boundary does and does not catch -/

/-- C1 counterexample: a failure arising after a successful fetch (here the
extraction stage raising on the fetched markup) escapes `check_change` as an
uncaught exception, and one such failing page terminates the whole scheduling
loop — the claimed catch-and-degrade at the pipeline boundary does not exist for
post-fetch failures (line 139's `try` covers only the fetch). -/
theorem post_fetch_failure_counterexample :
    check_change "page1" (fun _ => PyRes.exn) (PyRes.ok "<html>") none = PyRes.exn ∧
    runLoop
        (fun p => check_change p.page_name (fun _ => PyRes.exn) (PyRes.ok "<html>") none)
        [0]
        [⟨"page1", "u1", 1, -3600⟩, ⟨"page2", "u2", 1, 0⟩] = PyRes.exn := by
  decide

/-- C1 amended: only failures of the fetch itself are caught at the pipeline
boundary and degraded to the logged, per-page `inaccessible` outcome; a failure
arising after a successful fetch (for example an extraction failure) propagates
out of `check_change` uncaught, and an uncaught exception from the checked page
terminates the scheduling loop, leaving the remaining pages unmonitored. -/
theorem post_fetch_failure_uncaught (page_name : String)
    (soupText : String → PyRes String) (html : String) (store : Option String)
    (h : soupText html = PyRes.exn) :
    check_change page_name soupText (PyRes.ok html) store = PyRes.exn ∧
    check_change page_name soupText PyRes.exn store =
      PyRes.ok ⟨Outcome.inaccessible, store, [inaccessibleMessage page_name]⟩ ∧
    ∀ (checker : CheckPage → PyRes CheckResult) (now : Int) (ts : List Int)
      (pages : List CheckPage) (sel : Nat × Int),
      selectNext pages = some sel →
      checker ((setLastChecked pages sel.1 now).getD sel.1 defaultPage) = PyRes.exn →
      runLoop checker (now :: ts) pages = PyRes.exn := by
  refine ⟨?_, rfl, ?_⟩
  · simp only [check_change, check_change_with, get_readable_page, h]
  · intro checker now ts pages sel hsel hchk
    simp only [runLoop, loopStep, hsel, hchk]

/-- Witness for C1's amended statement at a concrete input. -/
theorem post_fetch_failure_uncaught_witness :
    check_change "p" (fun _ => PyRes.exn) (PyRes.ok "h") none = PyRes.exn ∧
    check_change "p" (fun _ => PyRes.exn) PyRes.exn none =
      PyRes.ok ⟨Outcome.inaccessible, none, [inaccessibleMessage "p"]⟩ ∧
    ∀ (checker : CheckPage → PyRes CheckResult) (now : Int) (ts : List Int)
      (pages : List CheckPage) (sel : Nat × Int),
      selectNext pages = some sel →
      checker ((setLastChecked pages sel.1 now).getD sel.1 defaultPage) = PyRes.exn →
      runLoop checker (now :: ts) pages = PyRes.exn :=
  post_fetch_failure_uncaught "p" (fun _ => PyRes.exn) "h" none rfl

/-! ### C3: the line marks of the rendered diff -/

/-- The two-character marks `ndiff` can put at the start of an output line:
equal, insert, delete, and the intraline guide mark `"? "`. -/
def markOk (l : String) : Prop :=
  l.data.take 2 = [' ', ' '] ∨ l.data.take 2 = ['+', ' '] ∨
  l.data.take 2 = ['-', ' '] ∨ l.data.take 2 = ['?', ' ']

/-- Every line of a `_dump` with one of the three op tags is marked. -/
theorem markOk_dump (tag : String)
    (htag : tag = "-" ∨ tag = "+" ∨ tag = " ") (x : List String) (lo hi : Nat) :
    ∀ l ∈ pyDump tag x lo hi, markOk l := by
  intro l hl
  rcases List.mem_map.mp hl with ⟨i, _, rfl⟩
  rcases htag with rfl | rfl | rfl
  · exact Or.inr (Or.inr (Or.inl rfl))
  · exact Or.inr (Or.inl rfl)
  · exact Or.inl rfl

/-- Every line of a `_plain_replace` is marked. -/
theorem markOk_plainReplace (a : List String) (alo ahi : Nat) (b : List String)
    (blo bhi : Nat) : ∀ l ∈ plainReplace a alo ahi b blo bhi, markOk l := by
  intro l hl
  unfold plainReplace at hl
  split at hl
  · rcases List.mem_append.mp hl with h | h
    · exact markOk_dump "+" (Or.inr (Or.inl rfl)) b blo bhi l h
    · exact markOk_dump "-" (Or.inl rfl) a alo ahi l h
  · rcases List.mem_append.mp hl with h | h
    · exact markOk_dump "-" (Or.inl rfl) a alo ahi l h
    · exact markOk_dump "+" (Or.inr (Or.inl rfl)) b blo bhi l h

/-- Membership in a conditional singleton. -/
theorem mem_ite_singleton {c : Prop} [Decidable c] {x l : String}
    (h : l ∈ if c then [x] else []) : l = x := by
  split at h
  · simpa using h
  · simp at h

/-- Every line of a `_qformat` quad is marked. -/
theorem markOk_qformat (aline bline atags btags : String) :
    ∀ l ∈ qformat aline bline atags btags, markOk l := by
  intro l hl
  unfold qformat at hl
  rcases List.mem_append.mp hl with h | h
  · rcases List.mem_append.mp h with h | h
    · rcases List.mem_append.mp h with h | h
      · rcases List.mem_singleton.mp h with rfl
        exact Or.inr (Or.inr (Or.inl rfl))
      · rcases mem_ite_singleton h with rfl
        exact Or.inr (Or.inr (Or.inr rfl))
    · rcases List.mem_singleton.mp h with rfl
      exact Or.inr (Or.inl rfl)
  · rcases mem_ite_singleton h with rfl
    exact Or.inr (Or.inr (Or.inr rfl))

/-- Every line emitted by `_fancy_replace`/`_fancy_helper` is marked. -/
theorem markOk_pyFancy (a b : List String) :
    ∀ (fuel : Nat) (tk : Bool) (alo ahi blo bhi : Nat),
      ∀ l ∈ pyFancy a b fuel tk alo ahi blo bhi, markOk l := by
  intro fuel
  induction fuel with
  | zero =>
    intro tk alo ahi blo bhi l hl
    simp [pyFancy] at hl
  | succ fuel ih =>
    intro tk alo ahi blo bhi l hl
    cases tk with
    | false =>
      simp only [pyFancy] at hl
      split at hl
      · split at hl
        · exact markOk_plainReplace a alo ahi b blo bhi l hl
        · next v hv =>
          rcases List.mem_append.mp hl with h | h
          · exact ih true alo v.1 blo v.2 l h
          · rcases List.mem_cons.mp h with rfl | h'
            · exact Or.inl rfl
            · exact ih true (v.1 + 1) ahi (v.2 + 1) bhi l h'
      · split at hl
        · simp at hl
        · next v hv =>
          rcases List.mem_append.mp hl with h | h
          · rcases List.mem_append.mp h with h1 | h2
            · exact ih true alo v.1 blo v.2 l h1
            · exact markOk_qformat _ _ _ _ l h2
          · exact ih true (v.1 + 1) ahi (v.2 + 1) bhi l h
    | true =>
      simp only [pyFancy] at hl
      split at hl
      · split at hl
        · exact ih false alo ahi blo bhi l hl
        · exact markOk_dump "-" (Or.inl rfl) a alo ahi l hl
      · split at hl
        · exact markOk_dump "+" (Or.inr (Or.inl rfl)) b blo bhi l hl
        · simp at hl

/-- C3 counterexample: `ndiff` output is not limited to the three claimed line
kinds — close but unequal lines produce intraline guide lines marked `"? "`
(with a trailing newline), as on old text `abcd` versus new text `abce`. -/
theorem ndiff_guide_line_counterexample :
    pyNdiff ["abcd"] ["abce"] = ["- abcd", "?    ^\n", "+ abce", "?    ^\n"] ∧
    ¬ ∀ l ∈ pyNdiff ["abcd"] ["abce"],
        l.data.take 2 = [' ', ' '] ∨ l.data.take 2 = ['+', ' '] ∨
        l.data.take 2 = ['-', ' '] := by
  decide

/-- C3 amended: every line of the diff list rendered into the report body
carries one of the four two-character marks `"  "` (equal), `"+ "` (insert),
`"- "` (delete), or `"? "` (difflib's intraline guide lines, which the claim
omitted); no other line kind occurs. -/
theorem ndiff_marks_amended (a b : List String) :
    ∀ l ∈ pyNdiff a b,
      l.data.take 2 = [' ', ' '] ∨ l.data.take 2 = ['+', ' '] ∨
      l.data.take 2 = ['-', ' '] ∨ l.data.take 2 = ['?', ' '] := by
  intro l hl
  unfold pyNdiff pyCompare at hl
  rcases List.mem_flatten.mp hl with ⟨chunk, hchunk, hlc⟩
  rcases List.mem_map.mp hchunk with ⟨op, _, rfl⟩
  rcases op with ⟨tag, alo, ahi, blo, bhi⟩
  cases tag with
  | equal => exact markOk_dump " " (Or.inr (Or.inr rfl)) a alo ahi l hlc
  | replace => exact markOk_pyFancy a b (a.length + b.length + 2) false alo ahi blo bhi l hlc
  | delete => exact markOk_dump "-" (Or.inl rfl) a alo ahi l hlc
  | insert => exact markOk_dump "+" (Or.inr (Or.inl rfl)) b blo bhi l hlc

/-- Witness for C3's amended statement on a concrete diff line. -/
theorem ndiff_marks_amended_witness :
    ("- a" : String).data.take 2 = [' ', ' '] ∨
    ("- a" : String).data.take 2 = ['+', ' '] ∨
    ("- a" : String).data.take 2 = ['-', ' '] ∨
    ("- a" : String).data.take 2 = ['?', ' '] :=
  ndiff_marks_amended ["a"] ["b"] "- a" (by decide)

end NotifyOnPageChange
